import Mathlib

/-!
Verification development for the mypyc lowering core
(`mypyc/irbuild/mapper.py`, `mypyc/irbuild/specialize.py`,
`mypyc/irbuild/context.py`, `mypy/semanal_shared.py`).

The Python data model and operations are shallowly embedded as Lean
definitions; `assert False` / `AssertionError` paths are modelled by
`Option` results (`none` is the aborting branch).
-/

namespace MypycLower

/-- Modelled from the spec: a primitive runtime representation tag
("RPrimitive" in `mypyc.ir.rtypes`, which is not part of the sources
under verification).  Only the fields read by the code under
verification are kept: the tag name, the byte size and the signedness
of the fixed-width integer representations (the spec's 8/16/32/64-bit
signed/unsigned integers). -/
structure RPrimitive where
  name : String
  size : Nat
  is_signed : Bool
deriving DecidableEq, Repr

/-- Modelled from the spec: the closed lattice of runtime
representation types ("RType" in `mypyc.ir.rtypes`): primitive tags,
instance-of-compiled-class (identified by the class fullname),
fixed-arity tuples and unions of representation types. -/
inductive RType where
  | rprim (p : RPrimitive)
  | rinstance (class_name : String)
  | rtuple (types : List RType)
  | runion (items : List RType)

mutual

/-- Structural boolean equality on representation types (deriving is
unavailable for this nested inductive). -/
def RType.beq : RType → RType → Bool
  | .rprim p, .rprim q => decide (p = q)
  | .rinstance a, .rinstance b => decide (a = b)
  | .rtuple xs, .rtuple ys => RType.beqList xs ys
  | .runion xs, .runion ys => RType.beqList xs ys
  | _, _ => false

def RType.beqList : List RType → List RType → Bool
  | [], [] => true
  | x :: xs, y :: ys => RType.beq x y && RType.beqList xs ys
  | _, _ => false

end

mutual

theorem RType.beq_iff_eq : ∀ a b : RType, RType.beq a b = true ↔ a = b
  | .rprim p, .rprim q => by simp [RType.beq]
  | .rprim _, .rinstance _ => by simp [RType.beq]
  | .rprim _, .rtuple _ => by simp [RType.beq]
  | .rprim _, .runion _ => by simp [RType.beq]
  | .rinstance _, .rprim _ => by simp [RType.beq]
  | .rinstance a, .rinstance b => by simp [RType.beq]
  | .rinstance _, .rtuple _ => by simp [RType.beq]
  | .rinstance _, .runion _ => by simp [RType.beq]
  | .rtuple _, .rprim _ => by simp [RType.beq]
  | .rtuple _, .rinstance _ => by simp [RType.beq]
  | .rtuple xs, .rtuple ys => by
    simp [RType.beq, RType.beqList_iff_eq xs ys]
  | .rtuple _, .runion _ => by simp [RType.beq]
  | .runion _, .rprim _ => by simp [RType.beq]
  | .runion _, .rinstance _ => by simp [RType.beq]
  | .runion _, .rtuple _ => by simp [RType.beq]
  | .runion xs, .runion ys => by
    simp [RType.beq, RType.beqList_iff_eq xs ys]

theorem RType.beqList_iff_eq : ∀ xs ys : List RType, RType.beqList xs ys = true ↔ xs = ys
  | [], [] => by simp [RType.beqList]
  | [], _ :: _ => by simp [RType.beqList]
  | _ :: _, [] => by simp [RType.beqList]
  | x :: xs, y :: ys => by
    simp [RType.beqList, RType.beq_iff_eq x y, RType.beqList_iff_eq xs ys]

end

instance : DecidableEq RType := fun a b =>
  decidable_of_iff (RType.beq a b = true) (RType.beq_iff_eq a b)

def int_rprimitive : RType := .rprim ⟨"builtins.int", 8, true⟩
def float_rprimitive : RType := .rprim ⟨"builtins.float", 8, true⟩
def bool_rprimitive : RType := .rprim ⟨"builtins.bool", 1, false⟩
def str_rprimitive : RType := .rprim ⟨"builtins.str", 8, false⟩
def bytes_rprimitive : RType := .rprim ⟨"builtins.bytes", 8, false⟩
def list_rprimitive : RType := .rprim ⟨"builtins.list", 8, false⟩
def dict_rprimitive : RType := .rprim ⟨"builtins.dict", 8, false⟩
def set_rprimitive : RType := .rprim ⟨"builtins.set", 8, false⟩
def frozenset_rprimitive : RType := .rprim ⟨"builtins.frozenset", 8, false⟩
def tuple_rprimitive : RType := .rprim ⟨"builtins.tuple", 8, false⟩
def range_rprimitive : RType := .rprim ⟨"builtins.range", 8, false⟩
def none_rprimitive : RType := .rprim ⟨"builtins.None", 8, false⟩
def object_rprimitive : RType := .rprim ⟨"builtins.object", 8, false⟩
def int64_rprimitive : RType := .rprim ⟨"i64", 8, true⟩
def int32_rprimitive : RType := .rprim ⟨"i32", 4, true⟩
def int16_rprimitive : RType := .rprim ⟨"i16", 2, true⟩
def uint8_rprimitive : RType := .rprim ⟨"u8", 1, false⟩

/-- Embeds `mypy.nodes.TypeInfo` as read by `Mapper.type_to_rtype`:
the class fullname, the fullnames of the classes in its method
resolution order, and the protocol flag. -/
structure TypeInfo where
  fullname : String
  mro : List String
  is_protocol : Bool
deriving DecidableEq, Repr

/-- Embeds the `Mapper` state read by `type_to_rtype`: the set of
classes registered as compiled (`Mapper.type_to_ir`); the `ClassIR`
value of a registered class is identified by the class fullname. -/
structure Mapper where
  type_to_ir : List TypeInfo
deriving Repr

/-- Embeds the fragment of the mypy static-type grammar
(`mypy.types`) that `Mapper.type_to_rtype` dispatches on.  All
constructors are proper types (`get_proper_type` is the identity on
them).  Fields not read by the code under verification are dropped. -/
inductive MType where
  | instanceT (info : TypeInfo)
  | tupleT (items : List MType) (partial_fallback_fullname : String)
  | callableT
  | noneT
  | unionT (items : List MType)
  | anyT
  | typeTypeT
  | typeVarLikeT (upper_bound : MType)
  | partialT (var_type : Option MType)
  | overloadedT
  | typedDictT
  | literalT (fallback : MType)
  | uninhabitedT
  | unboundT (name : String)
  | unpackT (t : MType)
  | placeholderT (fullname : String)

/-- Embeds `mypy.types.find_unpack_in_list`: index of the first
`UnpackType` item, if any. -/
def find_unpack_in_list : List MType → Option Nat
  | [] => none
  | .unpackT _ :: _ => some 0
  | _ :: rest => (find_unpack_in_list rest).map (· + 1)

def RType.is_union : RType → Bool
  | .runion _ => true
  | _ => false

mutual

/-- Modelled from the spec: `flatten_nested_unions` over representation
types (in `mypyc.ir.rtypes`, not under verification) — "unions are
simplified (deduplicated, flattened) on construction".  A union item is
recursively replaced by its members. -/
def flatten_one : RType → List RType
  | .runion zs => flatten_nested_unions zs
  | r => [r]

def flatten_nested_unions : List RType → List RType
  | [] => []
  | r :: rest => flatten_one r ++ flatten_nested_unions rest

end

/-- Deduplication keeping the first occurrence of each element (as
Python's `dict.fromkeys` does), with an accumulator of elements
already seen. -/
def dedup_first_aux (seen : List RType) : List RType → List RType
  | [] => []
  | x :: xs =>
    if x ∈ seen then dedup_first_aux seen xs
    else x :: dedup_first_aux (seen ++ [x]) xs

/-- Deduplication keeping the first occurrence of each element. -/
def dedup_first (l : List RType) : List RType :=
  dedup_first_aux [] l

/-- Modelled from the spec: `RUnion.make_simplified_union` (in
`mypyc.ir.rtypes`, not under verification) — flatten nested unions,
deduplicate, and collapse a singleton to its sole member; the
assertion that the flattened list is non-empty is modelled by `none`. -/
def make_simplified_union (items : List RType) : Option RType :=
  match dedup_first (flatten_nested_unions items) with
  | [] => none
  | [r] => some r
  | rs => some (.runion rs)

mutual

/-- Embeds `Mapper.type_to_rtype` on a (proper) static type.  The
final `assert False, "unexpected type"` branch — reached by types with
no `isinstance` case, such as `PlaceholderType` and `UnpackType` — and
the `assert typ.var.type is not None` in the `PartialType` branch are
modelled by `none`. -/
def type_to_rtype_p (m : Mapper) : MType → Option RType
  | .instanceT info =>
    if info.fullname = "builtins.int" then some int_rprimitive
    else if info.fullname = "builtins.float" then some float_rprimitive
    else if info.fullname = "builtins.bool" then some bool_rprimitive
    else if info.fullname = "builtins.str" then some str_rprimitive
    else if info.fullname = "builtins.bytes" then some bytes_rprimitive
    else if info.fullname = "builtins.list" then some list_rprimitive
    -- Dict subclasses are specifically supported: any class with
    -- builtins.dict in its MRO gets the dict representation.
    else if info.mro.contains "builtins.dict" then some dict_rprimitive
    else if info.fullname = "builtins.set" then some set_rprimitive
    else if info.fullname = "builtins.frozenset" then some frozenset_rprimitive
    else if info.fullname = "builtins.tuple" then some tuple_rprimitive
    else if info.fullname = "builtins.range" then some range_rprimitive
    else if m.type_to_ir.contains info then
      -- Protocols become Union[protocol, object].
      if info.is_protocol then
        some (.runion [.rinstance info.fullname, object_rprimitive])
      else
        some (.rinstance info.fullname)
    else if info.fullname = "mypy_extensions.i64" then some int64_rprimitive
    else if info.fullname = "mypy_extensions.i32" then some int32_rprimitive
    else if info.fullname = "mypy_extensions.i16" then some int16_rprimitive
    else if info.fullname = "mypy_extensions.u8" then some uint8_rprimitive
    else some object_rprimitive
  | .tupleT items fb =>
    -- Unboxed tuples for raw tuples; boxed for NamedTuple or variadic tuples.
    if fb = "builtins.tuple" ∧ find_unpack_in_list items = none then
      (type_to_rtype_list m items).map RType.rtuple
    else
      some tuple_rprimitive
  | .callableT => some object_rprimitive
  | .noneT => some none_rprimitive
  | .unionT items =>
    (type_to_rtype_list m items).bind make_simplified_union
  | .anyT => some object_rprimitive
  | .typeTypeT => some object_rprimitive
  | .typeVarLikeT ub =>
    -- Erase type variable to upper bound.
    type_to_rtype_p m ub
  | .partialT vt =>
    match vt with
    | none => none
    | some t => type_to_rtype_p m t
  | .overloadedT => some object_rprimitive
  | .typedDictT => some dict_rprimitive
  | .literalT fb => type_to_rtype_p m fb
  | .uninhabitedT => some object_rprimitive
  | .unboundT _ => some object_rprimitive
  | .unpackT _ => none
  | .placeholderT _ => none

/-- Element-wise lowering of a list of static types, failing when any
element fails (a Python list comprehension propagates the exception). -/
def type_to_rtype_list (m : Mapper) : List MType → Option (List RType)
  | [] => some []
  | t :: ts =>
    match type_to_rtype_p m t, type_to_rtype_list m ts with
    | some r, some rs => some (r :: rs)
    | _, _ => none

end

/-- Embeds `Mapper.type_to_rtype` including its `typ is None` entry
case. -/
def type_to_rtype (m : Mapper) : Option MType → Option RType
  | none => some object_rprimitive
  | some t => type_to_rtype_p m t

/-- Modelled from the spec: equality of representation types as the
code observes it (Python `==`).  A union's items form a set — unions
are "simplified (deduplicated, flattened) on construction" and compare
independently of member order — while every other constructor compares
structurally. -/
def rtype_py_eq (a b : RType) : Bool :=
  match a, b with
  | .runion xs, .runion ys =>
    xs.all (fun x => decide (x ∈ ys)) && ys.all (fun y => decide (y ∈ xs))
  | _, _ => decide (a = b)

/-- Pointwise lift of `rtype_py_eq` to the `Option` results of
`type_to_rtype` (two aborting computations are alike). -/
def opt_rtype_py_eq : Option RType → Option RType → Bool
  | none, none => true
  | some a, some b => rtype_py_eq a b
  | _, _ => false

/-- The shape invariant of every union built by the lowering: its item
list has at least two members, no duplicates, and no nested union. -/
def union_wf : RType → Bool
  | .runion zs => decide (2 ≤ zs.length) && decide zs.Nodup && zs.all (fun z => !z.is_union)
  | _ => true

/-- Embeds `mypy.nodes.ArgKind` (ARG_POS, ARG_OPT, ARG_STAR,
ARG_NAMED, ARG_STAR2, ARG_NAMED_OPT). -/
inductive ArgKind where
  | pos
  | opt
  | star
  | named
  | star2
  | named_opt
deriving DecidableEq, Repr

/-- Embeds `Mapper.get_arg_rtype`: *args parameters get the
varying-length tuple representation and **kwargs parameters the dict
representation, regardless of the declared type; all other kinds lower
the declared type. -/
def get_arg_rtype (m : Mapper) (typ : MType) (kind : ArgKind) : Option RType :=
  if kind = ArgKind.star then some tuple_rprimitive
  else if kind = ArgKind.star2 then some dict_rprimitive
  else type_to_rtype_p m typ

/-- Embeds the fields of `mypy.nodes.FuncItem` read by `FuncInfo`. -/
structure FuncItem where
  is_generator : Bool
  is_coroutine : Bool
deriving DecidableEq, Repr

/-- Embeds `mypyc.irbuild.context.FuncInfo`: the per-function lowering
state flags (the lazily-attached synthesized-class links are not read
by the properties under verification). -/
structure FuncInfo where
  fitem : FuncItem
  name : String
  class_name : Option String
  ns : String
  is_nested : Bool
  contains_nested : Bool
  is_decorated : Bool
  in_non_ext : Bool
  add_nested_funcs_to_env : Bool
deriving DecidableEq, Repr

/-- Embeds the `FuncInfo.is_generator` property:
`fitem.is_generator or fitem.is_coroutine`. -/
def FuncInfo.is_generator (fi : FuncInfo) : Bool :=
  fi.fitem.is_generator || fi.fitem.is_coroutine

/-- Embeds `FuncInfo.can_merge_generator_and_env_classes`: in simple
cases the environment can be placed into the generator class instead
of having two separate classes. -/
def FuncInfo.can_merge_generator_and_env_classes (fi : FuncInfo) : Bool :=
  fi.is_generator && !fi.is_nested && !fi.contains_nested

/-- Embeds the fragment of the `mypy.nodes.Expression` grammar read by
the code under verification: name references (with fullname), string
literals, and everything else. -/
inductive Expression where
  | nameE (fullname : String)
  | strE (value : String)
  | otherE (k : Nat)
deriving DecidableEq, Repr

/-- Embeds `mypyc.ir.ops.Value` as read by the specializers under
verification.  Modelled from the spec for the parts outside the
sources: an integer literal (`Integer`) carries its compile-time
numeric value and representation type; non-literal values are the
result of accepting an expression or of emitting a named primitive
call (the instruction-emission service is an external collaborator). -/
inductive Value where
  | integer (numeric_value : Int) (rtype : RPrimitive)
  | expr_value (e : Expression)
  | primitive_call (op_name : String) (args : List Value)

mutual

/-- Structural boolean equality on values (deriving is unavailable for
this nested inductive). -/
def Value.beq : Value → Value → Bool
  | .integer x p, .integer y q => decide (x = y) && decide (p = q)
  | .expr_value a, .expr_value b => decide (a = b)
  | .primitive_call n xs, .primitive_call m ys => decide (n = m) && Value.beqList xs ys
  | _, _ => false

def Value.beqList : List Value → List Value → Bool
  | [], [] => true
  | x :: xs, y :: ys => Value.beq x y && Value.beqList xs ys
  | _, _ => false

end

mutual

theorem Value.val_beq_iff_eq : ∀ a b : Value, Value.beq a b = true ↔ a = b
  | .integer _ _, .integer _ _ => by simp [Value.beq]
  | .integer _ _, .expr_value _ => by simp [Value.beq]
  | .integer _ _, .primitive_call _ _ => by simp [Value.beq]
  | .expr_value _, .integer _ _ => by simp [Value.beq]
  | .expr_value _, .expr_value _ => by simp [Value.beq]
  | .expr_value _, .primitive_call _ _ => by simp [Value.beq]
  | .primitive_call _ _, .integer _ _ => by simp [Value.beq]
  | .primitive_call _ _, .expr_value _ => by simp [Value.beq]
  | .primitive_call _ xs, .primitive_call _ ys => by
    simp [Value.beq, Value.val_beqList_iff_eq xs ys]

theorem Value.val_beqList_iff_eq : ∀ xs ys : List Value, Value.beqList xs ys = true ↔ xs = ys
  | [], [] => by simp [Value.beqList]
  | [], _ :: _ => by simp [Value.beqList]
  | _ :: _, [] => by simp [Value.beqList]
  | x :: xs, y :: ys => by
    simp [Value.beqList, Value.val_beq_iff_eq x y, Value.val_beqList_iff_eq xs ys]

end

instance : DecidableEq Value := fun a b =>
  decidable_of_iff (Value.beq a b = true) (Value.val_beq_iff_eq a b)

/-- Embeds `mypyc.irbuild.specialize.truncate_literal`: truncate an
integer literal to a fixed-width native int representation using
two's-complement; non-literal values are returned unchanged.  The
Python `x & max_unsigned` on a (possibly negative) unbounded int is
the mathematical `x mod 2^(8*size)`. -/
def truncate_literal (value : Value) (rtype : RPrimitive) : Value :=
  match value with
  | .integer x _ =>
    let max_unsigned : Int := 2 ^ (rtype.size * 8) - 1
    let x1 : Int := x % (max_unsigned + 1)
    let x2 : Int :=
      if rtype.is_signed ∧ x1 ≥ (max_unsigned + 1) / 2 then
        -- Adjust to make it a negative value
        x1 - (max_unsigned + 1)
      else x1
    .integer x2 rtype
  | v => v

/-- Embeds one argument of a `mypy.nodes.CallExpr`; mypy keeps `args`,
`arg_kinds` and `arg_names` as three aligned lists, embedded here as
one list of records. -/
structure Arg where
  value : Expression
  kind : ArgKind
  name : Option String
deriving DecidableEq, Repr

/-- Embeds the fields of `mypy.nodes.CallExpr` read by the
specializers. -/
structure CallExpr where
  args : List Arg
deriving DecidableEq, Repr

/-- Embeds `mypy.nodes.RefExpr`: either a plain name reference or a
member access `receiver.name`. -/
inductive RefExpr where
  | nameRef (fullname : String)
  | memberRef (expr : Expression) (name : String)
deriving DecidableEq, Repr

/-- One step of `str_encode_fast_path`'s argument scan: fold argument
slot `idx` (0 or 1) into the running `(encoding, errors)` pair,
starting from the defaults `("utf8", "strict")`.  A non-string-literal
argument or a star/named-opt kind declines (`none`); a positional
argument sets `encoding` at slot 0 and `errors` at slot 1; a named
argument sets the field it names and is otherwise ignored. -/
def encode_arg_step (st : String × String) (idx : Nat) (a : Arg) : Option (String × String) :=
  match a.value with
  | .strE v =>
    match a.kind with
    | .named =>
      if a.name = some "encoding" then some (v, st.2)
      else if a.name = some "errors" then some (st.1, v)
      else some st
    | .pos => if idx = 0 then some (v, st.2) else some (st.1, v)
    | _ => none
  | _ => none

/-- The encoding-alias normalization of `str_encode_fast_path`:
`encoding.lower().replace("-", "").replace("_", "")`, i.e. lowercase
every character and drop every "-" and "_" (expressed directly on the
character list so that it evaluates in the kernel). -/
def normalize_encoding (s : String) : String :=
  String.mk (((s.data.map Char.toLower).filter (fun c => c ≠ '-')).filter (fun c => c ≠ '_'))

/-- Embeds `mypyc.irbuild.specialize.str_encode_fast_path`: specialize
`str.encode` calls whose encoding and errors arguments are string
literals, the error mode is strict, and the normalized encoding is a
recognized alias of utf-8, ascii or latin-1; decline (`none`)
otherwise.  Emission of the fast routine is modelled as a
`primitive_call` value naming the routine and carrying the accepted
receiver. -/
def str_encode_fast_path (expr : CallExpr) (callee : RefExpr) : Option Value :=
  match callee with
  | .nameRef _ => none
  | .memberRef recv _ =>
    let st1 : Option (String × String) :=
      match expr.args.get? 0 with
      | none => some ("utf8", "strict")
      | some a => encode_arg_step ("utf8", "strict") 0 a
    let st2 : Option (String × String) :=
      match expr.args.get? 1 with
      | none => st1
      | some a => st1.bind (fun st => encode_arg_step st 1 a)
    st2.bind (fun st =>
      if st.2 ≠ "strict" then none
      else
        let e := normalize_encoding st.1
        -- Specialized encodings and their accepted aliases
        if ["u8", "utf", "utf8", "cp65001"].contains e then
          some (.primitive_call "str_encode_utf8_strict" [.expr_value recv])
        else if ["646", "ascii", "usascii"].contains e then
          some (.primitive_call "str_encode_ascii_strict" [.expr_value recv])
        else if ["iso88591", "8859", "cp819", "latin", "latin1", "l1"].contains e then
          some (.primitive_call "str_encode_latin1_strict" [.expr_value recv])
        else none)

/-- A specializer rewrite rule, as in `mypyc.irbuild.specialize`: it
inspects a call expression and its callee reference and either commits
to a rewritten value or declines with `none`.  The `IRBuilder`
argument is omitted: instruction emission belongs to the external
collaborator and plays no role in the selection logic. -/
def Specializer := CallExpr → RefExpr → Option Value

/-- The specializer registry: an ordered association list from
`(name, receiver RType?)` keys to ordered rule lists, embedding the
module-level `specializers` dict. -/
def Registry := List ((String × Option RType) × List Specializer)

/-- Embeds the registration performed by the `specialize_function`
decorator: `specializers.setdefault((name, typ), []).append(f)` —
append the rule to the list for the key, creating the entry if needed. -/
def specialize_function : Registry → String → Option RType → Specializer → Registry
  | [], name, typ, f => [((name, typ), [f])]
  | kv :: rest, name, typ, f =>
    if kv.1 = (name, typ) then (kv.1, kv.2 ++ [f]) :: rest
    else kv :: specialize_function rest name typ f

/-- Lookup of the rule list registered for a key, embedding
`specializers[name, typ]` guarded by `(name, typ) in specializers`. -/
def specializers_lookup : Registry → String × Option RType → Option (List Specializer)
  | [], _ => none
  | kv :: rest, key => if kv.1 = key then some kv.2 else specializers_lookup rest key

/-- The rule loop of `_apply_specialization`: try each rule in order
and return the first successful result. -/
def run_specializers : List Specializer → CallExpr → RefExpr → Option Value
  | [], _, _ => none
  | f :: fs, expr, callee =>
    match f expr callee with
    | some val => some val
    | none => run_specializers fs expr callee

/-- How many rules the loop of `_apply_specialization` invokes: every
rule up to and including the first successful one (all of them when
every rule declines). -/
def invoked_specializer_count : List Specializer → CallExpr → RefExpr → Nat
  | [], _, _ => 0
  | f :: fs, expr, callee =>
    match f expr callee with
    | some _ => 1
    | none => 1 + invoked_specializer_count fs expr callee

/-- Embeds `_apply_specialization`: when the (truthy, i.e. non-empty)
name together with the receiver type has a registered rule list, run
the rules in registration order and return the first successful
result; `none` means the generic call path runs. -/
def apply_specialization (reg : Registry) (name : Option String) (typ : Option RType)
    (expr : CallExpr) (callee : RefExpr) : Option Value :=
  match name with
  | none => none
  | some n =>
    if n = "" then none
    else
      match specializers_lookup reg (n, typ) with
      | none => none
      | some rules => run_specializers rules expr callee

/-- The diagnostic text of `require_bool_literal_argument`. -/
def literal_required_message (name : String) : String :=
  "\"" ++ name ++ "\" argument must be a True or False literal"

/-- Embeds `mypy.semanal_shared.parse_bool`: a name expression whose
fullname is `builtins.True` (resp. `builtins.False`) parses to `true`
(resp. `false`); anything else does not parse. -/
def parse_bool (expr : Expression) : Option Bool :=
  match expr with
  | .nameE fullname =>
    if fullname = "builtins.True" then some true
    else if fullname = "builtins.False" then some false
    else none
  | _ => none

/-- Embeds `mypy.semanal_shared.require_bool_literal_argument`.  The
`api.fail` side effect is made explicit: the result is the returned
value paired with the list of diagnostics reported during the call. -/
def require_bool_literal_argument (expression : Expression) (name : String)
    (default : Option Bool) : Option Bool × List String :=
  match parse_bool expression with
  | none => (default, [literal_required_message name])
  | some value => (some value, [])

/-- A declining demonstration rule for the specializer registry. -/
def demo_rule_decline : Specializer := fun _ _ => none

/-- A demonstration rule that rewrites every call site. -/
def demo_rule_first : Specializer := fun _ _ => some (.expr_value (.nameE "first"))

/-- A second always-successful demonstration rule, registered after
`demo_rule_first`. -/
def demo_rule_second : Specializer := fun _ _ => some (.expr_value (.nameE "second"))

/-- A registry with three rules registered for the same key, in the
order decline, first, second. -/
def demo_registry : Registry :=
  specialize_function
    (specialize_function
      (specialize_function [] "builtins.f" none demo_rule_decline)
      "builtins.f" none demo_rule_first)
    "builtins.f" none demo_rule_second

/- ## Theorems -/

/-- C1 (amended): a `None` input and the Any, UnboundType and
UninhabitedType proper types all lower to the universal boxed object
representation, but a `PlaceholderType` input has no `isinstance` case
in `type_to_rtype` and reaches the final assert-False branch
(modelled by `none`). -/
theorem type_to_rtype_fallback_totality (m : Mapper) (s : String) :
    type_to_rtype m none = some object_rprimitive ∧
    type_to_rtype_p m .anyT = some object_rprimitive ∧
    type_to_rtype_p m (.unboundT s) = some object_rprimitive ∧
    type_to_rtype_p m .uninhabitedT = some object_rprimitive ∧
    type_to_rtype_p m (.placeholderT s) = none :=
  ⟨rfl, rfl, rfl, rfl, rfl⟩

/-- C1 counterexample: a `PlaceholderType` input does not lower to the
universal boxed object — it reaches the assert-False branch, so the
claim that the branch is unreachable for placeholder inputs is false. -/
theorem placeholder_hits_assert_false :
    type_to_rtype_p ⟨[]⟩ (.placeholderT "P") = none ∧
    type_to_rtype_p ⟨[]⟩ (.placeholderT "P") ≠ some object_rprimitive :=
  ⟨by rfl, by decide⟩

/-- C3: an instance of any class whose MRO contains `builtins.dict`,
and whose own fullname is not one of the six primitive builtins
checked earlier, lowers to the dict representation — the dict branch
is tested before the compiled-class branch, so this holds even when
the class is registered in `type_to_ir`. -/
theorem dict_subclass_lowers_to_dict (m : Mapper) (info : TypeInfo)
    (hdict : info.mro.contains "builtins.dict" = true)
    (hname : info.fullname ∉
      ["builtins.int", "builtins.float", "builtins.bool", "builtins.str",
        "builtins.bytes", "builtins.list"]) :
    type_to_rtype_p m (.instanceT info) = some dict_rprimitive := by
  simp only [List.mem_cons, List.not_mem_nil, or_false, not_or] at hname
  obtain ⟨n1, n2, n3, n4, n5, n6⟩ := hname
  have hmem : "builtins.dict" ∈ info.mro := by simpa using hdict
  simp [type_to_rtype_p, n1, n2, n3, n4, n5, n6, hmem]

/-- C3 witness: a user-defined dict subclass that is itself registered
as a compiled class still lowers to the dict representation. -/
theorem dict_subclass_lowers_to_dict_witness :
    type_to_rtype_p
      ⟨[⟨"m.MyDict", ["m.MyDict", "builtins.dict", "builtins.object"], false⟩]⟩
      (.instanceT ⟨"m.MyDict", ["m.MyDict", "builtins.dict", "builtins.object"], false⟩) =
      some dict_rprimitive :=
  dict_subclass_lowers_to_dict _ _ (by decide) (by decide)

/-- C4: when every element of a tuple type lowers successfully, the
tuple lowers to the fixed-arity unboxed `RTuple` of the element-wise
lowerings (in order) exactly when its fallback is plain
`builtins.tuple` and no element is an unpacked variadic item; in every
other case it lowers to the dynamically-sized boxed tuple
representation. -/
theorem tuple_lowering_rtuple_iff (m : Mapper) (items : List MType) (fb : String)
    (rs : List RType) (h : type_to_rtype_list m items = some rs) :
    (type_to_rtype_p m (.tupleT items fb) = some (.rtuple rs) ↔
      (fb = "builtins.tuple" ∧ find_unpack_in_list items = none)) ∧
    (¬(fb = "builtins.tuple" ∧ find_unpack_in_list items = none) →
      type_to_rtype_p m (.tupleT items fb) = some tuple_rprimitive) := by
  by_cases hc : fb = "builtins.tuple" ∧ find_unpack_in_list items = none
  · constructor
    · rw [iff_true_intro hc, iff_true]
      simp [type_to_rtype_p, hc, h]
    · intro hn
      exact absurd hc hn
  · constructor
    · rw [iff_false_intro hc, iff_false]
      simp [type_to_rtype_p, hc, tuple_rprimitive]
    · intro _
      simp [type_to_rtype_p, hc]

/-- C4 witness: a two-element raw tuple of int and None lowers to the
unboxed RTuple of their lowerings, and the same elements under a
NamedTuple fallback lower to the boxed varying-length tuple. -/
theorem tuple_lowering_rtuple_iff_witness :
    type_to_rtype_p ⟨[]⟩
        (.tupleT [.instanceT ⟨"builtins.int", [], false⟩, .noneT] "builtins.tuple") =
      some (.rtuple [int_rprimitive, none_rprimitive]) ∧
    type_to_rtype_p ⟨[]⟩
        (.tupleT [.instanceT ⟨"builtins.int", [], false⟩, .noneT] "m.MyNamedTuple") =
      some tuple_rprimitive :=
  ⟨(tuple_lowering_rtuple_iff ⟨[]⟩ _ _ _ (by decide)).1.mpr (by decide),
   (tuple_lowering_rtuple_iff ⟨[]⟩ _ _ [int_rprimitive, none_rprimitive]
      (by decide)).2 (by decide)⟩

/-- C6: the merge predicate holds exactly for self-contained
generators — `can_merge_generator_and_env_classes` returns true if
and only if the function is a generator or coroutine, is not nested,
and does not contain nested functions. -/
theorem can_merge_iff_self_contained_generator (fi : FuncInfo) :
    fi.can_merge_generator_and_env_classes = true ↔
      (fi.is_generator = true ∧ fi.is_nested = false ∧ fi.contains_nested = false) := by
  simp [FuncInfo.can_merge_generator_and_env_classes, and_assoc]

/-- C6 witness: a top-level generator containing no nested functions
satisfies the merge predicate. -/
theorem can_merge_iff_self_contained_generator_witness :
    FuncInfo.can_merge_generator_and_env_classes
      ⟨⟨true, false⟩, "g", none, "", false, false, false, false, false⟩ = true :=
  (can_merge_iff_self_contained_generator _).mpr ⟨by decide, by decide, by decide⟩

/-- C7: compile-time truncation of integer literals follows the
two's-complement rule — an integer literal v truncated to a target of
byte size s becomes v mod 2^(8s), further reduced by 2^(8s) when the
target is signed and the reduced value is at least 2^(8s-1); literal
256 truncated to an unsigned 8-bit target yields 0 and literal 200
truncated to a signed 8-bit target yields -56; non-literal values are
returned unchanged. -/
theorem truncate_literal_twos_complement (v : Int) (p0 p : RPrimitive)
    (e : Expression) (opn : String) (vs : List Value) (hs : 1 ≤ p.size) :
    truncate_literal (.integer v p0) p =
      .integer
        (if p.is_signed = true ∧ v % 2 ^ (8 * p.size) ≥ 2 ^ (8 * p.size - 1)
          then v % 2 ^ (8 * p.size) - 2 ^ (8 * p.size)
          else v % 2 ^ (8 * p.size)) p ∧
    truncate_literal (.integer 256 p0) ⟨"u8", 1, false⟩ =
      .integer 0 ⟨"u8", 1, false⟩ ∧
    truncate_literal (.integer 200 p0) ⟨"i8", 1, true⟩ =
      .integer (-56) ⟨"i8", 1, true⟩ ∧
    truncate_literal (.expr_value e) p = .expr_value e ∧
    truncate_literal (.primitive_call opn vs) p = .primitive_call opn vs := by
  refine ⟨?_, by rfl, by rfl, rfl, rfl⟩
  simp only [truncate_literal, Value.integer.injEq, and_true]
  have hm : (2 : Int) ^ (p.size * 8) - 1 + 1 = 2 ^ (8 * p.size) := by
    rw [Nat.mul_comm]
    ring
  have hhalf : (2 : Int) ^ (8 * p.size) / 2 = 2 ^ (8 * p.size - 1) := by
    obtain ⟨n, hn⟩ : ∃ n, 8 * p.size = n + 1 := ⟨8 * p.size - 1, by omega⟩
    rw [hn, pow_succ, Int.mul_ediv_cancel _ (by norm_num), Nat.add_sub_cancel]
  rw [hm, hhalf]

/-- C7 witness: the general two's-complement formula applied to
literal 200 and a signed 2-byte target. -/
theorem truncate_literal_twos_complement_witness :
    truncate_literal (.integer 200 ⟨"builtins.int", 8, true⟩) ⟨"i16", 2, true⟩ =
      .integer
        (if (⟨"i16", 2, true⟩ : RPrimitive).is_signed = true ∧
            (200 : Int) % 2 ^ (8 * 2) ≥ 2 ^ (8 * 2 - 1)
          then (200 : Int) % 2 ^ (8 * 2) - 2 ^ (8 * 2)
          else (200 : Int) % 2 ^ (8 * 2)) ⟨"i16", 2, true⟩ :=
  (truncate_literal_twos_complement 200 ⟨"builtins.int", 8, true⟩ ⟨"i16", 2, true⟩
    (.nameE "x") "f" [] (by decide)).1

/-- The specializer loop returns the result of the first successful
rule and invokes exactly the rules up to and including it. -/
theorem run_specializers_first :
    ∀ (rules : List Specializer) (expr : CallExpr) (callee : RefExpr)
      (i : Nat) (hi : i < rules.length) (v : Value),
      (rules.get ⟨i, hi⟩) expr callee = some v →
      (∀ j (hj : j < i), (rules.get ⟨j, Nat.lt_trans hj hi⟩) expr callee = none) →
      run_specializers rules expr callee = some v ∧
        invoked_specializer_count rules expr callee = i + 1 := by
  intro rules
  induction rules with
  | nil =>
    intro expr callee i hi
    exact absurd hi (by simp)
  | cons f fs ih =>
    intro expr callee i hi v hget hprev
    cases i with
    | zero =>
      have h0 : f expr callee = some v := hget
      simp [run_specializers, invoked_specializer_count, h0]
    | succ k =>
      have h0 : f expr callee = none := hprev 0 (Nat.succ_pos k)
      have hk : (fs.get ⟨k, by simpa using hi⟩) expr callee = some v := by
        simpa using hget
      have hprev2 : ∀ j (hj : j < k),
          (fs.get ⟨j, Nat.lt_trans hj (by simpa using hi)⟩) expr callee = none := by
        intro j hj
        have := hprev (j + 1) (Nat.succ_lt_succ hj)
        simpa using this
      have h := ih expr callee k (by simpa using hi) v hk hprev2
      refine ⟨?_, ?_⟩
      · simp [run_specializers, h0, h.1]
      · simp [invoked_specializer_count, h0, h.2]
        try omega

/-- When every rule declines, the specializer loop returns no value
after invoking all rules. -/
theorem run_specializers_all_none :
    ∀ (rules : List Specializer) (expr : CallExpr) (callee : RefExpr),
      (∀ i (hi : i < rules.length), (rules.get ⟨i, hi⟩) expr callee = none) →
      run_specializers rules expr callee = none ∧
        invoked_specializer_count rules expr callee = rules.length := by
  intro rules
  induction rules with
  | nil =>
    intro expr callee _
    exact ⟨rfl, rfl⟩
  | cons f fs ih =>
    intro expr callee hall
    have h0 : f expr callee = none := hall 0 (by simp)
    have hrest : ∀ i (hi : i < fs.length), (fs.get ⟨i, hi⟩) expr callee = none := by
      intro i hi
      have := hall (i + 1) (by simpa using hi)
      simpa using this
    have h := ih expr callee hrest
    refine ⟨?_, ?_⟩
    · simp [run_specializers, h0, h.1]
    · simp [invoked_specializer_count, h0, h.2]
      try omega

/-- C2: for a call site whose (non-empty) callee key has a registered
rule list, `_apply_specialization` invokes the rules in registration
order and returns the result of the first rule that returns a value;
once rule i succeeds, exactly rules 0..i have been invoked and no
later rule runs; if every rule declines, the attempt returns no value
(so the generic call path runs) after invoking all rules. -/
theorem apply_specialization_first_success (reg : Registry) (n : String)
    (typ : Option RType) (expr : CallExpr) (callee : RefExpr)
    (rules : List Specializer) (hn : n ≠ "")
    (hlook : specializers_lookup reg (n, typ) = some rules) :
    (∀ i (hi : i < rules.length) (v : Value),
        (rules.get ⟨i, hi⟩) expr callee = some v →
        (∀ j (hj : j < i), (rules.get ⟨j, Nat.lt_trans hj hi⟩) expr callee = none) →
        apply_specialization reg (some n) typ expr callee = some v ∧
          invoked_specializer_count rules expr callee = i + 1) ∧
    ((∀ i (hi : i < rules.length), (rules.get ⟨i, hi⟩) expr callee = none) →
      apply_specialization reg (some n) typ expr callee = none ∧
        invoked_specializer_count rules expr callee = rules.length) := by
  have happ : apply_specialization reg (some n) typ expr callee =
      run_specializers rules expr callee := by
    simp [apply_specialization, hn, hlook]
  constructor
  · intro i hi v hget hprev
    have h := run_specializers_first rules expr callee i hi v hget hprev
    exact ⟨happ.trans h.1, h.2⟩
  · intro hall
    have h := run_specializers_all_none rules expr callee hall
    exact ⟨happ.trans h.1, h.2⟩

/-- C2 witness: in a registry with three rules registered for one key
(decline, then two always-successful rules), the attempt returns the
second rule's value and invokes exactly the first two rules. -/
theorem apply_specialization_first_success_witness :
    apply_specialization demo_registry (some "builtins.f") none ⟨[]⟩
        (.nameRef "builtins.f") = some (.expr_value (.nameE "first")) ∧
    invoked_specializer_count [demo_rule_decline, demo_rule_first, demo_rule_second]
        ⟨[]⟩ (.nameRef "builtins.f") = 2 :=
  (apply_specialization_first_success demo_registry "builtins.f" none ⟨[]⟩
      (.nameRef "builtins.f") [demo_rule_decline, demo_rule_first, demo_rule_second]
      (by decide) (by rfl)).1 1 (by decide) (.expr_value (.nameE "first")) rfl
    (fun j hj => by
      have hj0 : j = 0 := by omega
      subst hj0
      rfl)

/-- C8: the str.encode specializer commits to a dedicated fast routine
only for literal, normalized, supported encodings with strict error
handling — a literal encoding normalizing into the utf-8 alias set
with default or explicitly strict errors resolves to the UTF-8 strict
routine, while a non-literal encoding or errors argument, a
non-strict error mode, or an unsupported encoding alias always
declines so the generic call path runs. -/
theorem str_encode_fast_path_spec (recv : Expression) (mname : String) :
    (∀ s : String,
        ["u8", "utf", "utf8", "cp65001"].contains (normalize_encoding s) = true →
        str_encode_fast_path ⟨[⟨.strE s, .pos, none⟩]⟩ (.memberRef recv mname) =
            some (.primitive_call "str_encode_utf8_strict" [.expr_value recv]) ∧
          str_encode_fast_path ⟨[⟨.strE s, .named, some "encoding"⟩]⟩
              (.memberRef recv mname) =
            some (.primitive_call "str_encode_utf8_strict" [.expr_value recv]) ∧
          str_encode_fast_path ⟨[⟨.strE s, .pos, none⟩, ⟨.strE "strict", .pos, none⟩]⟩
              (.memberRef recv mname) =
            some (.primitive_call "str_encode_utf8_strict" [.expr_value recv])) ∧
    (∀ (e : Expression) (k : ArgKind) (an : Option String) (rest : List Arg),
        (∀ v, e ≠ .strE v) →
        str_encode_fast_path ⟨⟨e, k, an⟩ :: rest⟩ (.memberRef recv mname) = none) ∧
    (∀ (s : String) (k0 : ArgKind) (an0 : Option String) (e : Expression)
        (k : ArgKind) (an : Option String) (rest : List Arg),
        (∀ v, e ≠ .strE v) →
        str_encode_fast_path ⟨⟨.strE s, k0, an0⟩ :: ⟨e, k, an⟩ :: rest⟩
          (.memberRef recv mname) = none) ∧
    (∀ s t : String, t ≠ "strict" →
        str_encode_fast_path ⟨[⟨.strE s, .pos, none⟩, ⟨.strE t, .pos, none⟩]⟩
          (.memberRef recv mname) = none) ∧
    (∀ s : String,
        ["u8", "utf", "utf8", "cp65001"].contains (normalize_encoding s) = false →
        ["646", "ascii", "usascii"].contains (normalize_encoding s) = false →
        ["iso88591", "8859", "cp819", "latin", "latin1", "l1"].contains
          (normalize_encoding s) = false →
        str_encode_fast_path ⟨[⟨.strE s, .pos, none⟩]⟩ (.memberRef recv mname) = none) := by
  have hbindnone : ∀ (o : Option (String × String)),
      (o.bind fun _ => (none : Option (String × String))) = none := by
    intro o
    cases o <;> rfl
  refine ⟨?_, ?_, ?_, ?_, ?_⟩
  · intro s hset
    have hset' : normalize_encoding s = "u8" ∨ normalize_encoding s = "utf" ∨
        normalize_encoding s = "utf8" ∨ normalize_encoding s = "cp65001" := by
      simpa using hset
    refine ⟨?_, ?_, ?_⟩ <;>
      · simp [str_encode_fast_path, encode_arg_step]
        intro h1 h2 h3 h4
        rcases hset' with h | h | h | h
        · exact absurd h h1
        · exact absurd h h2
        · exact absurd h h3
        · exact absurd h h4
  · intro e k an rest he
    cases e with
    | nameE fn => cases rest <;> simp [str_encode_fast_path, encode_arg_step]
    | strE v => exact absurd rfl (he v)
    | otherE j => cases rest <;> simp [str_encode_fast_path, encode_arg_step]
  · intro s k0 an0 e k an rest he
    cases e with
    | nameE fn => simp [str_encode_fast_path, encode_arg_step, hbindnone]
    | strE v => exact absurd rfl (he v)
    | otherE j => simp [str_encode_fast_path, encode_arg_step, hbindnone]
  · intro s t ht
    simp [str_encode_fast_path, encode_arg_step, ht]
  · intro s h1 h2 h3
    simp at h1 h2 h3
    simp [str_encode_fast_path, encode_arg_step, h1, h2, h3]

/-- C8 witness: a positional literal "UTF-8" resolves to the UTF-8
strict routine; a non-literal encoding argument, a non-strict error
mode and an unsupported encoding alias each decline. -/
theorem str_encode_fast_path_spec_witness :
    str_encode_fast_path ⟨[⟨.strE "UTF-8", .pos, none⟩]⟩
        (.memberRef (.nameE "x") "encode") =
      some (.primitive_call "str_encode_utf8_strict" [.expr_value (.nameE "x")]) ∧
    str_encode_fast_path ⟨[⟨.nameE "enc", .pos, none⟩]⟩
        (.memberRef (.nameE "x") "encode") = none ∧
    str_encode_fast_path ⟨[⟨.strE "utf8", .pos, none⟩, ⟨.strE "replace", .pos, none⟩]⟩
        (.memberRef (.nameE "x") "encode") = none ∧
    str_encode_fast_path ⟨[⟨.strE "shift-jis", .pos, none⟩]⟩
        (.memberRef (.nameE "x") "encode") = none :=
  ⟨((str_encode_fast_path_spec (.nameE "x") "encode").1 "UTF-8" (by decide)).1,
   (str_encode_fast_path_spec (.nameE "x") "encode").2.1 (.nameE "enc") .pos none []
     (fun v => by simp),
   (str_encode_fast_path_spec (.nameE "x") "encode").2.2.2.1 "utf8" "replace" (by decide),
   (str_encode_fast_path_spec (.nameE "x") "encode").2.2.2.2 "shift-jis"
     (by decide) (by decide) (by decide)⟩

/-- C9: `require_bool_literal_argument` returns True (resp. False)
with no diagnostic exactly when the expression is a name referring to
the builtin literal True (resp. False); for every other expression it
reports the literal-required diagnostic exactly once and returns the
supplied default, so it never returns None when a boolean default is
given, and returns None only when no default is given and the
argument is not a literal. -/
theorem require_bool_literal_argument_spec (e : Expression) (name : String)
    (default : Option Bool) :
    (require_bool_literal_argument e name default = (some true, []) ↔
      e = .nameE "builtins.True") ∧
    (require_bool_literal_argument e name default = (some false, []) ↔
      e = .nameE "builtins.False") ∧
    (parse_bool e = none →
      require_bool_literal_argument e name default =
        (default, [literal_required_message name])) ∧
    (∀ b, default = some b → (require_bool_literal_argument e name default).1 ≠ none) ∧
    ((require_bool_literal_argument e name default).1 = none →
      default = none ∧ parse_bool e = none) := by
  have hfail : parse_bool e = none →
      require_bool_literal_argument e name default =
        (default, [literal_required_message name]) := by
    intro hp
    simp [require_bool_literal_argument, hp]
  have hok : ∀ b, parse_bool e = some b →
      require_bool_literal_argument e name default = (some b, []) := by
    intro b hp
    simp [require_bool_literal_argument, hp]
  have hparse : ∀ b : Bool, parse_bool e = some b ↔
      ((b = true ∧ e = .nameE "builtins.True") ∨
        (b = false ∧ e = .nameE "builtins.False")) := by
    intro b
    cases e with
    | nameE fn =>
      by_cases h1 : fn = "builtins.True"
      · subst h1
        cases b <;> simp +decide [parse_bool]
      · by_cases h2 : fn = "builtins.False"
        · subst h2
          cases b <;> simp +decide [parse_bool]
        · simp [parse_bool, h1, h2]
    | strE s => simp [parse_bool]
    | otherE k => simp [parse_bool]
  refine ⟨?_, ?_, hfail, ?_, ?_⟩
  · constructor
    · intro h
      cases hpe : parse_bool e with
      | none =>
        rw [hfail hpe] at h
        simp at h
      | some v =>
        rw [hok v hpe] at h
        have hv : v = true := by simpa using h
        rcases (hparse v).mp hpe with ⟨_, he⟩ | ⟨hf, _⟩
        · exact he
        · rw [hv] at hf
          exact absurd hf (by decide)
    · intro h
      subst h
      rw [hok true (by simp [parse_bool])]
  · constructor
    · intro h
      cases hpe : parse_bool e with
      | none =>
        rw [hfail hpe] at h
        simp at h
      | some v =>
        rw [hok v hpe] at h
        have hv : v = false := by simpa using h
        rcases (hparse v).mp hpe with ⟨hf, _⟩ | ⟨_, he⟩
        · rw [hv] at hf
          exact absurd hf (by decide)
        · exact he
    · intro h
      subst h
      rw [hok false (by simp [parse_bool])]
  · intro b hb
    subst hb
    cases hpe : parse_bool e with
    | none =>
      rw [hfail hpe]
      simp
    | some v =>
      rw [hok v hpe]
      simp
  · intro h
    cases hpe : parse_bool e with
    | none =>
      rw [hfail hpe] at h
      exact ⟨h, rfl⟩
    | some v =>
      rw [hok v hpe] at h
      simp at h

/-- C9 witness: the literal True resolves with no diagnostic, and a
non-literal argument with a boolean default returns the default and
reports the diagnostic exactly once. -/
theorem require_bool_literal_argument_spec_witness :
    require_bool_literal_argument (.nameE "builtins.True") "flag" none =
      (some true, []) ∧
    require_bool_literal_argument (.strE "x") "flag" (some false) =
      (some false, [literal_required_message "flag"]) :=
  ⟨(require_bool_literal_argument_spec (.nameE "builtins.True") "flag" none).1.mpr rfl,
   (require_bool_literal_argument_spec (.strE "x") "flag" (some false)).2.2.1 (by decide)⟩

/-- C10: calling-convention derivation ignores the declared static
type of variadic parameters — a *args parameter always derives the
varying-length tuple representation and a **kwargs parameter always
the dict representation, while every other parameter kind lowers its
declared type with `type_to_rtype`. -/
theorem get_arg_rtype_variadic_ignores_type (m : Mapper) (typ : MType) :
    get_arg_rtype m typ .star = some tuple_rprimitive ∧
    get_arg_rtype m typ .star2 = some dict_rprimitive ∧
    ∀ kind : ArgKind, kind ≠ .star → kind ≠ .star2 →
      get_arg_rtype m typ kind = type_to_rtype_p m typ := by
  refine ⟨rfl, rfl, ?_⟩
  intro kind h1 h2
  simp [get_arg_rtype, h1, h2]

/-- The modelled Python equality on representation types is
reflexive. -/
theorem rtype_py_eq_refl (a : RType) : rtype_py_eq a a = true := by
  cases a <;> simp [rtype_py_eq, List.all_eq_true]

/-- Membership in the first-occurrence deduplication with a seen
accumulator. -/
theorem mem_dedup_first_aux :
    ∀ (l seen : List RType) (x : RType),
      x ∈ dedup_first_aux seen l ↔ (x ∈ l ∧ x ∉ seen) := by
  intro l
  induction l with
  | nil =>
    intro seen x
    simp [dedup_first_aux]
  | cons y ys ih =>
    intro seen x
    by_cases hy : y ∈ seen
    · rw [dedup_first_aux, if_pos hy, ih seen x]
      constructor
      · rintro ⟨hxl, hxs⟩
        exact ⟨List.mem_cons_of_mem _ hxl, hxs⟩
      · rintro ⟨hxl, hxs⟩
        rcases List.mem_cons.mp hxl with h | h
        · subst h
          exact absurd hy hxs
        · exact ⟨h, hxs⟩
    · rw [dedup_first_aux, if_neg hy]
      rw [List.mem_cons, ih (seen ++ [y]) x]
      constructor
      · rintro (h | ⟨hxl, hxs⟩)
        · subst h
          exact ⟨List.mem_cons_self _ _, hy⟩
        · refine ⟨List.mem_cons_of_mem _ hxl, ?_⟩
          intro hxseen
          exact hxs (by simp [hxseen])
      · rintro ⟨hxl, hxs⟩
        by_cases hxy : x = y
        · exact Or.inl hxy
        · have hys : x ∈ ys := by
            rcases List.mem_cons.mp hxl with h | h
            · exact absurd h hxy
            · exact h
          refine Or.inr ⟨hys, ?_⟩
          intro hmem
          rcases List.mem_append.mp hmem with h2 | h2
          · exact hxs h2
          · simp at h2
            exact hxy h2

/-- Membership is preserved by first-occurrence deduplication. -/
theorem mem_dedup_first (l : List RType) (x : RType) :
    x ∈ dedup_first l ↔ x ∈ l := by
  simp [dedup_first, mem_dedup_first_aux]

/-- First-occurrence deduplication produces a duplicate-free list. -/
theorem nodup_dedup_first_aux :
    ∀ (l seen : List RType), (dedup_first_aux seen l).Nodup := by
  intro l
  induction l with
  | nil =>
    intro seen
    simp [dedup_first_aux]
  | cons y ys ih =>
    intro seen
    by_cases hy : y ∈ seen
    · rw [dedup_first_aux, if_pos hy]
      exact ih seen
    · rw [dedup_first_aux, if_neg hy]
      refine List.nodup_cons.mpr ⟨?_, ih _⟩
      intro hmem
      have h := (mem_dedup_first_aux ys (seen ++ [y]) y).mp hmem
      exact h.2 (by simp)

/-- First-occurrence deduplication produces a duplicate-free list. -/
theorem nodup_dedup_first (l : List RType) : (dedup_first l).Nodup :=
  nodup_dedup_first_aux l []

/-- Deduplication does not change the underlying element set. -/
theorem dedup_first_toFinset (l : List RType) :
    (dedup_first l).toFinset = l.toFinset := by
  ext x
  simp [List.mem_toFinset, mem_dedup_first]

/-- The length of the deduplicated list is the number of distinct
elements. -/
theorem length_dedup_first (l : List RType) :
    (dedup_first l).length = l.toFinset.card := by
  rw [← dedup_first_toFinset, List.toFinset_card_of_nodup (nodup_dedup_first l)]

/-- Permutations have the same element set. -/
theorem perm_toFinset (l1 l2 : List RType) (h : l1.Perm l2) :
    l1.toFinset = l2.toFinset := by
  ext x
  simp [List.mem_toFinset, h.mem_iff]

mutual

/-- The items produced by union flattening are never unions. -/
theorem flatten_one_not_union :
    ∀ (r : RType) (z : RType), z ∈ flatten_one r → z.is_union = false
  | .runion zs, z, hz => flatten_not_union zs z hz
  | .rprim p, z, hz => by
    simp [flatten_one] at hz
    subst hz
    rfl
  | .rinstance n, z, hz => by
    simp [flatten_one] at hz
    subst hz
    rfl
  | .rtuple ts, z, hz => by
    simp [flatten_one] at hz
    subst hz
    rfl

/-- The items produced by union flattening are never unions. -/
theorem flatten_not_union :
    ∀ (l : List RType) (z : RType), z ∈ flatten_nested_unions l → z.is_union = false
  | [], z, hz => by simp [flatten_nested_unions] at hz
  | r :: rest, z, hz => by
    rw [flatten_nested_unions] at hz
    rcases List.mem_append.mp hz with h | h
    · exact flatten_one_not_union r z h
    · exact flatten_not_union rest z h

end

/-- Flattening a list that contains no unions is the identity. -/
theorem flatten_of_not_union :
    ∀ l : List RType, (∀ z ∈ l, z.is_union = false) → flatten_nested_unions l = l := by
  intro l
  induction l with
  | nil =>
    intro _
    rfl
  | cons r rest ih =>
    intro h
    have hr : r.is_union = false := h r (by simp)
    have h1 : flatten_one r = [r] := by
      cases r <;> simp_all [flatten_one, RType.is_union]
    rw [flatten_nested_unions, h1, ih (fun z hz => h z (by simp [hz]))]
    rfl

/-- Deduplication of a list whose elements are all already seen is
empty. -/
theorem dedup_first_aux_of_covered :
    ∀ (l2 seen : List RType), (∀ x ∈ l2, x ∈ seen) → dedup_first_aux seen l2 = [] := by
  intro l2
  induction l2 with
  | nil =>
    intro seen _
    rfl
  | cons y ys ih =>
    intro seen h
    rw [dedup_first_aux, if_pos (h y (by simp))]
    exact ih seen fun x hx => h x (by simp [hx])

/-- Deduplication keeps a duplicate-free unseen prefix and drops a
suffix covered by it. -/
theorem dedup_first_aux_keep :
    ∀ (l seen l2 : List RType), l.Nodup → (∀ x ∈ l, x ∉ seen) →
      (∀ x ∈ l2, x ∈ seen ∨ x ∈ l) → dedup_first_aux seen (l ++ l2) = l := by
  intro l
  induction l with
  | nil =>
    intro seen l2 _ _ hcov
    simp only [List.nil_append]
    exact dedup_first_aux_of_covered l2 seen fun x hx =>
      (hcov x hx).resolve_right (by simp)
  | cons y ys ih =>
    intro seen l2 hnd hns hcov
    have hy : y ∉ seen := hns y (by simp)
    rw [List.cons_append, dedup_first_aux, if_neg hy]
    congr 1
    refine ih (seen ++ [y]) l2 (List.nodup_cons.mp hnd).2 ?_ ?_
    · intro x hx hmem
      rcases List.mem_append.mp hmem with h2 | h2
      · exact hns x (List.mem_cons_of_mem _ hx) h2
      · simp at h2
        subst h2
        exact (List.nodup_cons.mp hnd).1 hx
    · intro x hx
      rcases hcov x hx with h | h
      · exact Or.inl (by simp [h])
      · rcases List.mem_cons.mp h with h | h
        · exact Or.inl (by simp [h])
        · exact Or.inr h

/-- Deduplicating a duplicate-free list appended to itself returns the
list. -/
theorem dedup_first_append_self (l : List RType) (h : l.Nodup) :
    dedup_first (l ++ l) = l :=
  dedup_first_aux_keep l [] l h (by simp) fun x hx => Or.inr hx

/-- Non-union representation types trivially satisfy the union shape
invariant. -/
theorem union_wf_of_not_union (r : RType) (h : r.is_union = false) :
    union_wf r = true := by
  cases r <;> simp_all [union_wf, RType.is_union]

/-- Every result of `make_simplified_union` satisfies the union shape
invariant. -/
theorem make_simplified_union_wf (items : List RType) (r : RType)
    (h : make_simplified_union items = some r) : union_wf r = true := by
  rw [make_simplified_union] at h
  rcases hm : dedup_first (flatten_nested_unions items) with _ | ⟨a, rest⟩
  · rw [hm] at h
    cases h
  · rcases rest with _ | ⟨b, rest2⟩
    · rw [hm] at h
      have ha : r = a := by
        injection h with h2
        exact h2.symm
      subst ha
      refine union_wf_of_not_union r ?_
      have hmem : r ∈ dedup_first (flatten_nested_unions items) := by
        rw [hm]
        simp
      exact flatten_not_union _ r ((mem_dedup_first _ r).mp hmem)
    · rw [hm] at h
      have hr : r = .runion (a :: b :: rest2) := by
        injection h with h2
        exact h2.symm
      subst hr
      have hnodup : (a :: b :: rest2).Nodup := hm ▸ nodup_dedup_first _
      have hnu : ∀ z ∈ a :: b :: rest2, z.is_union = false := by
        intro z hz
        have hz2 : z ∈ dedup_first (flatten_nested_unions items) := hm ▸ hz
        exact flatten_not_union _ z ((mem_dedup_first _ z).mp hz2)
      simp only [union_wf, Bool.and_eq_true, decide_eq_true_eq, List.all_eq_true,
        Bool.not_eq_true']
      exact ⟨⟨by simp, hnodup⟩, fun z hz => hnu z hz⟩

/-- Every representation type produced by the lowering satisfies the
union shape invariant. -/
theorem type_to_rtype_p_wf (m : Mapper) :
    ∀ (t : MType) (r : RType), type_to_rtype_p m t = some r → union_wf r = true
  | .instanceT info, r, h => by
    rw [type_to_rtype_p] at h
    by_cases c1 : info.fullname = "builtins.int"
    · rw [if_pos c1] at h
      injection h with h2
      subst h2
      rfl
    rw [if_neg c1] at h
    by_cases c2 : info.fullname = "builtins.float"
    · rw [if_pos c2] at h
      injection h with h2
      subst h2
      rfl
    rw [if_neg c2] at h
    by_cases c3 : info.fullname = "builtins.bool"
    · rw [if_pos c3] at h
      injection h with h2
      subst h2
      rfl
    rw [if_neg c3] at h
    by_cases c4 : info.fullname = "builtins.str"
    · rw [if_pos c4] at h
      injection h with h2
      subst h2
      rfl
    rw [if_neg c4] at h
    by_cases c5 : info.fullname = "builtins.bytes"
    · rw [if_pos c5] at h
      injection h with h2
      subst h2
      rfl
    rw [if_neg c5] at h
    by_cases c6 : info.fullname = "builtins.list"
    · rw [if_pos c6] at h
      injection h with h2
      subst h2
      rfl
    rw [if_neg c6] at h
    by_cases c7 : info.mro.contains "builtins.dict" = true
    · rw [if_pos c7] at h
      injection h with h2
      subst h2
      rfl
    rw [if_neg c7] at h
    by_cases c8 : info.fullname = "builtins.set"
    · rw [if_pos c8] at h
      injection h with h2
      subst h2
      rfl
    rw [if_neg c8] at h
    by_cases c9 : info.fullname = "builtins.frozenset"
    · rw [if_pos c9] at h
      injection h with h2
      subst h2
      rfl
    rw [if_neg c9] at h
    by_cases c10 : info.fullname = "builtins.tuple"
    · rw [if_pos c10] at h
      injection h with h2
      subst h2
      rfl
    rw [if_neg c10] at h
    by_cases c11 : info.fullname = "builtins.range"
    · rw [if_pos c11] at h
      injection h with h2
      subst h2
      rfl
    rw [if_neg c11] at h
    by_cases c12 : m.type_to_ir.contains info = true
    · rw [if_pos c12] at h
      by_cases c13 : info.is_protocol = true
      · rw [if_pos c13] at h
        injection h with h2
        subst h2
        simp [union_wf, object_rprimitive, RType.is_union]
      · rw [if_neg c13] at h
        injection h with h2
        subst h2
        rfl
    rw [if_neg c12] at h
    by_cases c14 : info.fullname = "mypy_extensions.i64"
    · rw [if_pos c14] at h
      injection h with h2
      subst h2
      rfl
    rw [if_neg c14] at h
    by_cases c15 : info.fullname = "mypy_extensions.i32"
    · rw [if_pos c15] at h
      injection h with h2
      subst h2
      rfl
    rw [if_neg c15] at h
    by_cases c16 : info.fullname = "mypy_extensions.i16"
    · rw [if_pos c16] at h
      injection h with h2
      subst h2
      rfl
    rw [if_neg c16] at h
    by_cases c17 : info.fullname = "mypy_extensions.u8"
    · rw [if_pos c17] at h
      injection h with h2
      subst h2
      rfl
    rw [if_neg c17] at h
    injection h with h2
    subst h2
    rfl
  | .tupleT items fb, r, h => by
    simp only [type_to_rtype_p] at h
    split_ifs at h
    · cases hl : type_to_rtype_list m items with
      | none =>
        rw [hl] at h
        cases h
      | some rs =>
        rw [hl] at h
        injection h with h2
        subst h2
        rfl
    · injection h with h2
      subst h2
      rfl
  | .callableT, r, h => by
    injection h with h2
    subst h2
    rfl
  | .noneT, r, h => by
    injection h with h2
    subst h2
    rfl
  | .unionT items, r, h => by
    simp only [type_to_rtype_p] at h
    cases hl : type_to_rtype_list m items with
    | none =>
      rw [hl] at h
      cases h
    | some rs =>
      rw [hl] at h
      exact make_simplified_union_wf rs r (by simpa using h)
  | .anyT, r, h => by
    injection h with h2
    subst h2
    rfl
  | .typeTypeT, r, h => by
    injection h with h2
    subst h2
    rfl
  | .typeVarLikeT ub, r, h =>
    type_to_rtype_p_wf m ub r (by rw [type_to_rtype_p] at h; exact h)
  | .partialT none, r, h => by
    rw [type_to_rtype_p] at h
    cases h
  | .partialT (some t), r, h =>
    type_to_rtype_p_wf m t r (by rw [type_to_rtype_p] at h; exact h)
  | .overloadedT, r, h => by
    injection h with h2
    subst h2
    rfl
  | .typedDictT, r, h => by
    injection h with h2
    subst h2
    rfl
  | .literalT fb, r, h =>
    type_to_rtype_p_wf m fb r (by rw [type_to_rtype_p] at h; exact h)
  | .uninhabitedT, r, h => by
    injection h with h2
    subst h2
    rfl
  | .unboundT s, r, h => by
    injection h with h2
    subst h2
    rfl
  | .unpackT t, r, h => by
    rw [type_to_rtype_p] at h
    cases h
  | .placeholderT s, r, h => by
    rw [type_to_rtype_p] at h
    cases h

/-- Simplifying two item lists with permuted flattenings yields equal
results under the code's union equality. -/
theorem make_simplified_union_perm (l1 l2 : List RType)
    (h : (flatten_nested_unions l1).Perm (flatten_nested_unions l2)) :
    opt_rtype_py_eq (make_simplified_union l1) (make_simplified_union l2) = true := by
  have hmem : ∀ x, x ∈ dedup_first (flatten_nested_unions l1) ↔
      x ∈ dedup_first (flatten_nested_unions l2) := by
    intro x
    rw [mem_dedup_first, mem_dedup_first]
    exact h.mem_iff
  have hlen : (dedup_first (flatten_nested_unions l1)).length =
      (dedup_first (flatten_nested_unions l2)).length := by
    rw [length_dedup_first, length_dedup_first, perm_toFinset _ _ h]
  rw [make_simplified_union, make_simplified_union]
  rcases hd1 : dedup_first (flatten_nested_unions l1) with _ | ⟨a, r1⟩ <;>
    rcases hd2 : dedup_first (flatten_nested_unions l2) with _ | ⟨b, r2⟩ <;>
    rw [hd1, hd2] at hlen hmem
  · rfl
  · simp at hlen
  · simp at hlen
  · rcases r1 with _ | ⟨c, r1b⟩ <;> rcases r2 with _ | ⟨d, r2b⟩
    · have hab : a = b := by
        have := (hmem a).mp (by simp)
        simpa using this
      subst hab
      exact rtype_py_eq_refl a
    · simp at hlen
    · simp at hlen
    · simp only [opt_rtype_py_eq, rtype_py_eq, Bool.and_eq_true, List.all_eq_true,
        decide_eq_true_eq]
      exact ⟨fun x hx => (hmem x).mp hx, fun y hy => (hmem y).mpr hy⟩

/-- C5: lowering of union types is order-insensitive and idempotent —
under any class-registration state, `type_to_rtype(Union[A, B])` and
`type_to_rtype(Union[B, A])` are equal representation types (union
members are lowered individually and the union is deduplicated and
flattened on construction, so equality ignores member order), and
`type_to_rtype(Union[A, A])` is exactly `type_to_rtype(A)`. -/
theorem union_lowering_order_insensitive_idempotent (m : Mapper) (A B : MType) :
    opt_rtype_py_eq (type_to_rtype_p m (.unionT [A, B]))
        (type_to_rtype_p m (.unionT [B, A])) = true ∧
    type_to_rtype_p m (.unionT [A, A]) = type_to_rtype_p m A := by
  constructor
  · cases hA : type_to_rtype_p m A with
    | none =>
      cases hB : type_to_rtype_p m B with
      | none => simp [type_to_rtype_p, type_to_rtype_list, hA, hB, opt_rtype_py_eq]
      | some rb => simp [type_to_rtype_p, type_to_rtype_list, hA, hB, opt_rtype_py_eq]
    | some ra =>
      cases hB : type_to_rtype_p m B with
      | none => simp [type_to_rtype_p, type_to_rtype_list, hA, hB, opt_rtype_py_eq]
      | some rb =>
        have h1 : type_to_rtype_p m (.unionT [A, B]) = make_simplified_union [ra, rb] := by
          simp [type_to_rtype_p, type_to_rtype_list, hA, hB]
        have h2 : type_to_rtype_p m (.unionT [B, A]) = make_simplified_union [rb, ra] := by
          simp [type_to_rtype_p, type_to_rtype_list, hA, hB]
        rw [h1, h2]
        refine make_simplified_union_perm [ra, rb] [rb, ra] ?_
        have e1 : flatten_nested_unions [ra, rb] = flatten_one ra ++ flatten_one rb := by
          simp [flatten_nested_unions]
        have e2 : flatten_nested_unions [rb, ra] = flatten_one rb ++ flatten_one ra := by
          simp [flatten_nested_unions]
        rw [e1, e2]
        exact List.perm_append_comm
  · cases hA : type_to_rtype_p m A with
    | none => simp [type_to_rtype_p, type_to_rtype_list, hA]
    | some ra =>
      have hstep : type_to_rtype_p m (.unionT [A, A]) = make_simplified_union [ra, ra] := by
        simp [type_to_rtype_p, type_to_rtype_list, hA]
      rw [hstep]
      have hwf := type_to_rtype_p_wf m A ra hA
      cases ra with
      | rprim p =>
        simp [make_simplified_union, flatten_nested_unions, flatten_one,
          dedup_first, dedup_first_aux]
      | rinstance n =>
        simp [make_simplified_union, flatten_nested_unions, flatten_one,
          dedup_first, dedup_first_aux]
      | rtuple ts =>
        simp [make_simplified_union, flatten_nested_unions, flatten_one,
          dedup_first, dedup_first_aux]
      | runion zs =>
        simp only [union_wf, Bool.and_eq_true, List.all_eq_true, decide_eq_true_eq,
          Bool.not_eq_true'] at hwf
        obtain ⟨⟨h2, hnd⟩, hnu⟩ := hwf
        have hflat : flatten_nested_unions [RType.runion zs, RType.runion zs] = zs ++ zs := by
          rw [flatten_nested_unions, flatten_nested_unions, flatten_nested_unions]
          show flatten_nested_unions zs ++ (flatten_nested_unions zs ++ []) = zs ++ zs
          rw [flatten_of_not_union zs hnu, List.append_nil]
        rw [make_simplified_union, hflat, dedup_first_append_self zs hnd]
        rcases zs with _ | ⟨a, _ | ⟨b, t⟩⟩
        · simp at h2
        · simp at h2
        · rfl

/-- C5 witness: lowering the two orders of Union[int, str] yields the
same union under the code's equality, and Union[C, C] for a protocol
class C (whose lowering is itself a union) lowers exactly as C does. -/
theorem union_lowering_order_insensitive_idempotent_witness :
    opt_rtype_py_eq
        (type_to_rtype_p ⟨[]⟩ (.unionT [.instanceT ⟨"builtins.int", [], false⟩,
          .instanceT ⟨"builtins.str", [], false⟩]))
        (type_to_rtype_p ⟨[]⟩ (.unionT [.instanceT ⟨"builtins.str", [], false⟩,
          .instanceT ⟨"builtins.int", [], false⟩])) = true ∧
    type_to_rtype_p ⟨[⟨"m.P", [], true⟩]⟩
        (.unionT [.instanceT ⟨"m.P", [], true⟩, .instanceT ⟨"m.P", [], true⟩]) =
      type_to_rtype_p ⟨[⟨"m.P", [], true⟩]⟩ (.instanceT ⟨"m.P", [], true⟩) :=
  ⟨(union_lowering_order_insensitive_idempotent ⟨[]⟩
      (.instanceT ⟨"builtins.int", [], false⟩) (.instanceT ⟨"builtins.str", [], false⟩)).1,
   (union_lowering_order_insensitive_idempotent ⟨[⟨"m.P", [], true⟩]⟩
      (.instanceT ⟨"m.P", [], true⟩) (.instanceT ⟨"m.P", [], true⟩)).2⟩

/-- C10 witness: a positional parameter of declared type int lowers
its declared type, while a *args parameter of the same declared type
still derives the tuple representation. -/
theorem get_arg_rtype_variadic_ignores_type_witness :
    get_arg_rtype ⟨[]⟩ (.instanceT ⟨"builtins.int", [], false⟩) .pos =
      type_to_rtype_p ⟨[]⟩ (.instanceT ⟨"builtins.int", [], false⟩) ∧
    get_arg_rtype ⟨[]⟩ (.instanceT ⟨"builtins.int", [], false⟩) .star =
      some tuple_rprimitive :=
  ⟨(get_arg_rtype_variadic_ignores_type ⟨[]⟩ _).2.2 .pos (by decide) (by decide),
   (get_arg_rtype_variadic_ignores_type ⟨[]⟩ _).1⟩

end MypycLower
